import Mathlib

/-!
A shallow embedding of the annotation parser-emitter of iheaders
(`parse` in src/iheaders.c, lines 332-879) together with the auxiliary
output routine `emit_line` (lines 301-305) and the inner helper
`emit_attrs` (lines 776-793).

Modelling conventions:
  * Bytes are `Char`; the two byte streams are `List Char`.  The
    destination stream is the `out` field of the state, appended on every
    write the C code performs.
  * `m_buf` together with its write index `b` is modelled as the list of
    characters written so far (the C code never reads `m_buf` beyond the
    write index).  In `PARSE_BLOCK` the variable `b` is reused by the C
    code as the brace-nesting depth; the embedding keeps that counter in
    the field `b`.
  * `ma_buf` is `Option (List Char)` (`none` = the C null pointer); the
    list holds the bytes actually written.  `ma_size` mirrors the
    allocated size exactly as the C code tracks it: in block mode the
    allocation (64, doubled on demand) can exceed the written content,
    and `emit_attrs` scans the whole allocation, so reads beyond the
    written content return the configuration's `junk` character, an
    explicit stand-in for the uninitialized bytes the C code would read.
  * A character the C code reads one past the written region while
    trimming a block line (possible only for a block body whose last line
    is not newline-terminated) is modelled as an immediate NUL, i.e. the
    scan stops at the end of the written content.
  * Stack buffers the C code leaves uninitialized (`prefix_buf`,
    `source_buf`) start as the empty list.
  * `PARSE_ERR` is modelled by incrementing the `diags` counter; an error
    return (`return false`) sets the `dead` flag, after which every
    further input character is ignored, exactly as the C function stops
    reading.  The final result is a success iff `dead` is false.
  * `line`, `col`, `line_start`, `token_read_idx`, `copying`, `skip_char`
    and the prefix machinery follow the C code line by line.  The C token
    is a NUL-terminated string, so reading `token[token_size]` yields NUL;
    `tokenChar` models this with a `getD` defaulting to NUL.
-/

namespace IH

/-- The values of parse_mode_flag (PARSE_UNKNOWN .. PARSE_MEMBER). -/
inductive Flag
  | unknown
  | hpre
  | spre
  | block
  | member
  deriving DecidableEq, BEq, Repr

/-- Which buffer the prefix (or sprefix) pointer currently selects. -/
inductive Sel
  | sticky
  | perAnn
  deriving DecidableEq, BEq, Repr

/-- Process-wide configuration read by the parser. -/
structure Config where
  token : List Char
  indent_tab_size : Nat
  strip : Bool
  source_name : List Char
  junk : Char
  deriving Repr

/-- The mutable state of one parse call. -/
structure PState where
  line_start : Bool
  parse_mode : Bool
  prefix_set : Bool
  using_attrs : Bool
  b_a : Bool
  a : Nat
  b : Nat
  l : Nat
  flag : Flag
  m_buf : List Char
  ma_buf : Option (List Char)
  ma_size : Nat
  set_prefix_buf : List Char
  set_source_buf : List Char
  prefix_buf : List Char
  source_buf : List Char
  hsel : Sel
  ssel : Sel
  copying : Bool
  skip_char : Bool
  line : Nat
  col : Nat
  token_read_idx : Nat
  out : List Char
  diags : Nat
  dead : Bool
  deriving DecidableEq, Repr

/-- The text `emit_line` writes: #line N "name" and a newline. -/
def emit_line (cfg : Config) (n : Nat) : List Char :=
  ("#line ").data ++ (Nat.repr n).data ++ (" \"").data ++ cfg.source_name
    ++ ("\"").data ++ ['\n']

/-- Reading token[i]; index token.length is the NUL terminator of the C
string. -/
def tokenChar (cfg : Config) (i : Nat) : Char :=
  cfg.token.getD i '\x00'

/-- The searching branch (iheaders.c lines 400-417). -/
def searchStep (cfg : Config) (s : PState) (ch : Char) : PState :=
  if s.line_start || s.token_read_idx > 0 then
    let s :=
      if ch = tokenChar cfg s.token_read_idx then
        { s with token_read_idx := s.token_read_idx + 1, copying := false }
      else
        { s with token_read_idx := 0, copying := true }
    if s.token_read_idx = cfg.token.length then
      { s with parse_mode := true, flag := Flag.unknown }
    else s
  else s

/-- The pre label: enter a header or source prefix (lines 438-457). -/
def enterPre (s : PState) (lvl : Nat) : PState :=
  let s := { s with a := lvl }
  if s.prefix_set then { s with flag := Flag.spre, m_buf := [] }
  else { s with flag := Flag.hpre, prefix_set := true, m_buf := [] }

/-- The buffer the sprefix pointer selects. -/
def sprefixStr (s : PState) : List Char :=
  match s.ssel with
  | Sel.sticky => s.set_source_buf
  | Sel.perAnn => s.source_buf

/-- The buffer the prefix pointer selects. -/
def prefixStr (s : PState) : List Char :=
  match s.hsel with
  | Sel.sticky => s.set_prefix_buf
  | Sel.perAnn => s.prefix_buf

/-- PARSE_UNKNOWN handler (lines 422-505). -/
def unknownStep (cfg : Config) (s : PState) (ch : Char) : PState :=
  if ch = '\x7b' then
    { s with flag := Flag.block, b := 0, ma_buf := some [], ma_size := 64,
             b_a := false }
  else if ch = '(' then enterPre s 1
  else if ch = '[' then enterPre s 0
  else if ch = '\t' || ch = ' ' then s
  else if ch = '=' || ch = ';' || ch = ')' || ch = ']' || ch = '\x7d' then
    { s with diags := s.diags + 1, dead := true }
  else if ch = '\n' then
    if !s.prefix_set then s
    else
      { s with set_prefix_buf := s.prefix_buf, set_source_buf := s.source_buf,
               parse_mode := false }
  else
    if !cfg.strip then
      { s with m_buf := [ch], flag := Flag.member, l := s.line }
    else
      let pre := sprefixStr s
      let s := if pre.isEmpty then s else { s with out := s.out ++ pre ++ [' '] }
      { s with parse_mode := false }

/-- Appending one attribute name to ma_buf (lines 554-571): names are
separated by the byte 1 and the buffer ends with a NUL. -/
def attrAppend (ma : Option (List Char)) (sz : Nat) (name : List Char) :
    Option (List Char) × Nat :=
  match ma with
  | none => (some (name ++ ['\x00']), name.length + 1)
  | some buf => (some (buf.dropLast ++ ['\x01'] ++ name ++ ['\x00']),
                 sz + name.length + 1)

/-- Result of the attribute scan of a header prefix. -/
structure AttrScanResult where
  mPtr : Nat
  ma_buf : Option (List Char)
  ma_size : Nat
  dangling : Bool
  deriving DecidableEq, Repr

/-- The :name1,name2,...: scan over m_buf (lines 541-586).  The C loop
walks a pointer pc over m_buf [0, b); here the first list argument is the
remaining suffix m_buf.drop pc, so its head is the byte at pc and the
recursion is structural.  `dangling` is true when the loop ran off the
end with an unmatched colon, the case in which the C code prints a
syntax error but does not return. -/
def attrScanGo (mb : List Char) : List Char → Nat → Bool → Bool → Nat → Nat →
    Option (List Char) → Nat → AttrScanResult
  | [], _, _, even, _, mPtr, ma, sz =>
    { mPtr := mPtr, ma_buf := ma, ma_size := sz, dangling := !even }
  | ac :: rest, pc, parsing, even, lastPc, mPtr, ma, sz =>
    if parsing then
      if ac = '\x00' then attrScanGo mb rest (pc + 1) parsing even lastPc mPtr ma sz
      else if ac = ':' || ac = ',' then
        let even2 := if ac = ':' then true else even
        let mPtr2 := if ac = ':' then pc + 1 else mPtr
        let app :=
          if lastPc ≠ pc then attrAppend ma sz ((mb.drop lastPc).take (pc - lastPc))
          else (ma, sz)
        if even2 then { mPtr := mPtr2, ma_buf := app.1, ma_size := app.2, dangling := false }
        else attrScanGo mb rest (pc + 1) parsing even2 (pc + 1) mPtr2 app.1 app.2
      else attrScanGo mb rest (pc + 1) parsing even lastPc mPtr ma sz
    else if ac = ':' then attrScanGo mb rest (pc + 1) true false (pc + 1) mPtr ma sz
    else attrScanGo mb rest (pc + 1) parsing even lastPc mPtr ma sz

/-- The scan of lines 541-586 started at pc = 0 with the state the C code
initializes. -/
def attrScan (mb : List Char) : AttrScanResult :=
  attrScanGo mb mb 0 false true 0 0 none 0

/-- The after_parse label (lines 588-597): copy the remainder of m_buf
into the selected prefix buffer and point the prefix pointer at it. -/
def afterParse (s : PState) (isHeader : Bool) (mPtr : Nat) : PState :=
  let s := { s with using_attrs := s.ma_buf.isSome }
  let content := s.m_buf.drop mPtr
  if isHeader then
    { s with prefix_buf := content, hsel := Sel.perAnn, flag := Flag.unknown }
  else
    { s with source_buf := content, ssel := Sel.perAnn, flag := Flag.unknown }

/-- The end_pre label (lines 525-597). -/
def endPre (cfg : Config) (s : PState) : PState :=
  let isHeader : Bool := s.flag == Flag.hpre
  if cfg.strip || !isHeader then afterParse s isHeader 0
  else
    let s := { s with ma_buf := none, ma_size := 0 }
    let r := attrScan s.m_buf
    let s := { s with ma_buf := r.ma_buf, ma_size := r.ma_size,
                      diags := s.diags + (if r.dangling then 1 else 0) }
    afterParse s isHeader r.mPtr

/-- The copy_pre label (lines 618-628). -/
def copyPre (s : PState) (ch : Char) : PState :=
  if s.m_buf.length = 126 then { s with diags := s.diags + 1, dead := true }
  else { s with m_buf := s.m_buf ++ [ch] }

/-- PARSE_HEADER_PREFIX / PARSE_SOURCE_PREFIX handler (lines 506-629).
A closing paren with a = 0 falls through the ']' case into end_pre,
exactly as the C switch does. -/
def prefixStep (cfg : Config) (s : PState) (ch : Char) : PState :=
  if ch = ')' then
    if s.a = 1 then endPre cfg s
    else if s.a > 0 then copyPre { s with a := s.a - 1 } ch
    else endPre cfg s
  else if ch = ']' then
    if s.a > 0 then copyPre s ch else endPre cfg s
  else if ch = '(' then
    copyPre (if s.a > 0 then { s with a := s.a + 1 } else s) ch
  else if ch = '[' then
    if s.a > 0 then copyPre s ch
    else { s with diags := s.diags + 1, dead := true }
  else if ch = '\n' then { s with diags := s.diags + 1, dead := true }
  else copyPre s ch

/-- The least-indentation scan over a block body (lines 663-694).  A tab
advances the count by the literal constant 4, exactly as the C code does
(`num_spaces += 4;`), independently of the configured tab size. -/
def leastScan : List Char → Nat → Bool → Bool → Nat → Nat
  | [], _, _, _, least => least
  | ch :: rest, num, rs, ms, least =>
    if rs then
      if ch = ' ' then leastScan rest (num + 1) true ms least
      else if ch = '\t' then leastScan rest (num + 4) true ms least
      else if ch = '\n' then
        if least > num || ms then leastScan rest 0 true false num
        else leastScan rest 0 true ms least
      else leastScan rest num false ms least
    else if ch = '\n' then
      if least > num || ms then leastScan rest 0 true false num
      else leastScan rest 0 true ms least
    else leastScan rest num rs ms least

/-- least_num_spaces as computed at the end of a block (lines 663-694):
zero when indent_tab_size is 0. -/
def leastNumSpaces (cfg : Config) (content : List Char) : Nat :=
  if cfg.indent_tab_size > 0 then leastScan content 0 true true 0 else 0

/-- One line of the trim loop (lines 707-721): count of consumed
characters and of leading whitespace bytes skipped.  A tab widens the
column by the literal constant 4 (`indent_off += 4;`). -/
def scanLine (least : Nat) : List Char → Nat → Nat → Nat → Nat × Nat
  | [], n, off, _ => (n, off)
  | ch :: rest, n, off, ind =>
    if ch = '\n' || ch = '\x00' then (n, off)
    else if ind < least then
      if ch = ' ' then scanLine least rest (n + 1) (off + 1) (ind + 1)
      else if ch = '\t' then scanLine least rest (n + 1) (off + 1) (ind + 4)
      else scanLine least rest (n + 1) off ind
    else scanLine least rest (n + 1) off ind

/-- The indentation-trimming emission loop (lines 700-732).  Each outer
iteration consumes at least one character, so the character count of the
remaining text is enough fuel and the recursion is structural on it. -/
def trimGoAux (least : Nat) : Nat → List Char → Nat → List Char
  | 0, _, _ => []
  | _ + 1, [], _ => []
  | fuel + 1, c :: cs, idx =>
    let r := scanLine least (c :: cs) 0 0 0
    let emitted :=
      if idx + r.1 ≠ 0 then (((c :: cs).drop r.2).take (r.1 - r.2)) ++ ['\n'] else []
    emitted ++ trimGoAux least fuel ((c :: cs).drop (r.1 + 1)) (idx + r.1 + 1)

/-- The trim loop over the whole recorded block body. -/
def trimGo (least : Nat) (rest : List Char) (idx : Nat) : List Char :=
  trimGoAux least rest.length rest idx

/-- The cpy_char label of the block handler (lines 757-772). -/
def cpyChar (s : PState) (ch : Char) : PState :=
  let content := s.ma_buf.getD []
  let sz := if content.length = s.ma_size then s.ma_size * 2 else s.ma_size
  let s := { s with ma_buf := some (content ++ [ch]), ma_size := sz }
  if !s.b_a then { s with l := s.line, b_a := true } else s

/-- PARSE_BLOCK handler (lines 630-773). -/
def blockStep (cfg : Config) (s : PState) (ch : Char) : PState :=
  if ch = '\x7b' then
    let s := { s with b := s.b + 1 }
    let s := if !s.b_a then { s with l := s.line, b_a := true } else s
    cpyChar s ch
  else if ch = '\x7d' then
    if s.b = 0 then
      let content := s.ma_buf.getD []
      if cfg.strip then
        { s with out := s.out ++ content.filter (fun c => c == '\n'),
                 parse_mode := false, skip_char := true }
      else
        let least := leastNumSpaces cfg content
        let body := if least = 0 then content else trimGo least content 0
        { s with out := s.out ++ emit_line cfg s.l ++ body ++ ['\n'],
                 parse_mode := false }
    else cpyChar { s with b := s.b - 1 } ch
  else if ch = ' ' || ch = '\t' || ch = '\n' then
    if s.b_a then cpyChar s ch
    else if ch = '\n' then
      if cfg.strip then cpyChar s ch
      else { s with l := s.line, b_a := true }
    else s
  else cpyChar s ch

/-- Count of whitespace characters at the head of a list; applied to the
reversed m_buf it is the trailing-whitespace count of lines 818-826. -/
def wsCount : List Char → Nat
  | [] => 0
  | c :: r => if c = ' ' || c = '\t' || c = '\n' then wsCount r + 1 else 0

/-- The scan of emit_attrs (lines 776-793) over the whole allocation
[0, ma_size); bytes beyond the written content are the junk character.
The first numeric argument is the count ma_size - i of bytes left to
scan, so the recursion is structural; i < ma_size iff it is positive. -/
def emitAttrsGo (junk : Char) (buf : List Char) : Nat → Nat → Nat → List Char
  | 0, _, _ => []
  | fuel + 1, i, astart =>
    let ac := buf.getD i junk
    if ac = '\x00' then
      (" __attribute__((__").data ++ ((buf.drop astart).take (i - astart))
        ++ ("__))").data
    else if ac = '\x01' then
      (" __attribute__((__").data ++ ((buf.drop astart).take (i - astart))
        ++ ("__))").data ++ emitAttrsGo junk buf fuel (i + 1) (i + 1)
    else emitAttrsGo junk buf fuel (i + 1) astart

/-- emit_attrs: nothing unless using_attrs is set. -/
def emitAttrs (cfg : Config) (s : PState) : List Char :=
  if s.using_attrs then emitAttrsGo cfg.junk (s.ma_buf.getD []) s.ma_size 0 0
  else []

/-- PARSE_MEMBER handler (lines 774-854). -/
def memberStep (cfg : Config) (s : PState) (ch : Char) : PState :=
  if ch = ';' then
    let dir := if !cfg.strip then emit_line cfg s.l else []
    let p := prefixStr s
    let pre := if p.isEmpty then [] else p ++ [' ']
    { s with out := s.out ++ dir ++ pre ++ s.m_buf ++ emitAttrs cfg s
               ++ (";").data ++ ['\n'],
             parse_mode := false }
  else if ch = '\x7b' || ch = '=' then
    let offset := wsCount s.m_buf.reverse
    let dir := if !cfg.strip then emit_line cfg s.l else []
    let p := prefixStr s
    let pre := if p.isEmpty then [] else p ++ [' ']
    { s with out := s.out ++ dir ++ pre ++ s.m_buf.take (s.m_buf.length - offset)
               ++ emitAttrs cfg s ++ (";").data ++ ['\n'],
             parse_mode := false }
  else
    if s.m_buf.length = 512 then { s with diags := s.diags + 1, dead := true }
    else { s with m_buf := s.m_buf ++ [ch] }

/-- Dispatch on parse_mode_flag (lines 421-855). -/
def handlerStep (cfg : Config) (s : PState) (ch : Char) : PState :=
  match s.flag with
  | Flag.unknown => unknownStep cfg s ch
  | Flag.hpre => prefixStep cfg s ch
  | Flag.spre => prefixStep cfg s ch
  | Flag.block => blockStep cfg s ch
  | Flag.member => memberStep cfg s ch

/-- Position tracking at the top of the loop body (lines 392-397). -/
def bump (s : PState) (ch : Char) : PState :=
  if ch = '\n' then { s with col := 0, line := s.line + 1 }
  else { s with col := s.col + 1 }

/-- Cleanup after exiting parse mode for a token (lines 857-862); the
dead guard models the early error returns, which never reach this code. -/
def cleanup (s : PState) : PState :=
  if !s.dead && !s.parse_mode then
    { s with hsel := Sel.sticky, prefix_set := false, copying := true }
  else s

/-- The tail of the loop body (lines 865-872): line_start update and the
strip-mode echo; skipped entirely when an error return happened. -/
def finish (cfg : Config) (s : PState) (ch : Char) : PState :=
  if s.dead then s
  else
    let s := { s with line_start := ch == '\n' }
    let s :=
      if s.copying && cfg.strip && !s.skip_char then { s with out := s.out ++ [ch] }
      else s
    { s with skip_char := false }

/-- One character of the main loop (lines 390-873): position tracking,
search or dispatch, cleanup after leaving parse mode, then the tail. -/
def step (cfg : Config) (s : PState) (ch : Char) : PState :=
  if s.dead then s
  else
    let s := bump s ch
    let s :=
      if !s.parse_mode then searchStep cfg s ch
      else cleanup (handlerStep cfg s ch)
    finish cfg s ch

/-- The state at the top of a parse call (lines 347-385). -/
def initState : PState :=
  { line_start := true, parse_mode := false, prefix_set := false,
    using_attrs := false, b_a := false, a := 0, b := 0, l := 0,
    flag := Flag.unknown, m_buf := [], ma_buf := none, ma_size := 0,
    set_prefix_buf := [], set_source_buf := [], prefix_buf := [],
    source_buf := [], hsel := Sel.sticky, ssel := Sel.sticky,
    copying := true, skip_char := false, line := 1, col := 1,
    token_read_idx := 0, out := [], diags := 0, dead := false }

/-- A whole parse call: the strip-mode #line 1 directive, then the
character loop.  The result is the final state; the call succeeds iff
`dead` is false. -/
def parse (cfg : Config) (src : List Char) : PState :=
  let s0 := if cfg.strip then { initState with out := emit_line cfg 1 } else initState
  src.foldl (step cfg) s0

/-- Default configuration in header mode: token @, tab size 4. -/
def hdrCfg : Config :=
  { token := ['@'], indent_tab_size := 4, strip := false,
    source_name := ['s'], junk := 'J' }

/-- Default configuration in strip mode. -/
def stripCfg : Config := { hdrCfg with strip := true }

/-- Header mode with tab-indent size 8. -/
def hdrCfg8 : Config := { hdrCfg with indent_tab_size := 8 }

/-- Strip mode with the two-byte token ab. -/
def abStripCfg : Config := { stripCfg with token := ['a', 'b'] }

/-- The state components the cleanup of lines 857-862 must not disturb:
the sprefix selector and the attribute accumulator with its flag. -/
def frameOf (s : PState) : Sel × Option (List Char) × Nat × Bool :=
  (s.ssel, s.ma_buf, s.ma_size, s.using_attrs)

/-- No line start of the text carries the given character (the first
byte of the token); the flag is whether the first position is a line
start. -/
def noFalseStart (t0 : Char) : Bool → List Char → Bool
  | _, [] => true
  | ls, c :: r => (!ls || !(c == t0)) && noFalseStart t0 (c == '\n') r

/-- A text that is safe to scan right after an annotation ended, where
token_read_idx still holds token.length: its first byte must mismatch
the NUL terminator the recogniser compares against, and from there on
no line start may carry the first token byte. -/
def cleanTail (cfg : Config) : List Char → Bool
  | [] => true
  | c :: r => !(c == tokenChar cfg cfg.token.length)
      && noFalseStart (tokenChar cfg 0) (c == '\n') r

/-- Modelled from the spec wording for the amended C5 statement: the
leading-indentation width of one line, a tab counting 4 columns. -/
def lineIndentWidth : List Char → Nat
  | [] => 0
  | c :: r =>
    if c = ' ' then lineIndentWidth r + 1
    else if c = '\t' then lineIndentWidth r + 4
    else 0

/-- Modelled from the spec wording for the amended C5 statement: the
newline-terminated lines of a text; a final fragment with no newline is
dropped. -/
def termLines : List Char → List (List Char)
  | [] => []
  | c :: r =>
    if c = '\n' then [] :: termLines r
    else
      match termLines r with
      | [] => []
      | l :: ls => (c :: l) :: ls

/-- Modelled from the spec wording for the amended C5 statement: the
minimum leading-indentation width over all newline-terminated lines of
the body, blank lines included; zero when there is no such line. -/
def specLeast (body : List Char) : Nat :=
  match (termLines body).map lineIndentWidth with
  | [] => 0
  | x :: xs => xs.foldl min x

/-- Add n to the first entry of a list, if any. -/
def adjustFirst (n : Nat) : List Nat → List Nat
  | [] => []
  | x :: xs => (n + x) :: xs

/-- Replace the first entry of a list by n, if any. -/
def replaceFirst (n : Nat) : List Nat → List Nat
  | [] => []
  | _ :: xs => n :: xs

/-- Fold min over the tail starting from the head; d when empty. -/
def headMin (l : List Nat) (d : Nat) : Nat :=
  match l with
  | [] => d
  | x :: xs => xs.foldl min x
theorem cpyChar_pm (s : PState) (ch : Char) : (cpyChar s ch).parse_mode = s.parse_mode := by
  simp only [cpyChar]
  split <;> rfl

theorem copyPre_pm (s : PState) (ch : Char) : (copyPre s ch).parse_mode = s.parse_mode := by
  unfold copyPre
  split <;> rfl

theorem afterParse_pm (s : PState) (ih : Bool) (p : Nat) :
    (afterParse s ih p).parse_mode = s.parse_mode := by
  simp only [afterParse]
  split <;> rfl

theorem endPre_pm (cfg : Config) (s : PState) : (endPre cfg s).parse_mode = s.parse_mode := by
  simp only [endPre]
  split <;> rw [afterParse_pm]

theorem prefixStep_pm (cfg : Config) (s : PState) (ch : Char) :
    (prefixStep cfg s ch).parse_mode = s.parse_mode := by
  unfold prefixStep
  split_ifs <;> simp [endPre_pm, copyPre_pm]

set_option maxHeartbeats 1000000 in
theorem unknown_exit_frame (cfg : Config) (s : PState) (ch : Char)
    (hpm : s.parse_mode = true)
    (hx : (unknownStep cfg s ch).parse_mode = false) :
    frameOf (unknownStep cfg s ch) = frameOf s := by
  simp only [unknownStep, enterPre] at hx ⊢
  split_ifs at hx ⊢ <;> simp_all [frameOf, apply_ite]

set_option maxHeartbeats 1000000 in
theorem block_exit_frame (cfg : Config) (s : PState) (ch : Char)
    (hpm : s.parse_mode = true)
    (hx : (blockStep cfg s ch).parse_mode = false) :
    frameOf (blockStep cfg s ch) = frameOf s := by
  simp only [blockStep] at hx ⊢
  split_ifs at hx ⊢ <;> simp_all [cpyChar_pm, frameOf, apply_ite]

set_option maxHeartbeats 1000000 in
theorem member_exit_frame (cfg : Config) (s : PState) (ch : Char)
    (hpm : s.parse_mode = true)
    (hx : (memberStep cfg s ch).parse_mode = false) :
    frameOf (memberStep cfg s ch) = frameOf s := by
  simp only [memberStep] at hx ⊢
  split_ifs at hx ⊢ <;> simp_all [frameOf, apply_ite]

theorem handler_exit_frame (cfg : Config) (s : PState) (ch : Char)
    (hpm : s.parse_mode = true)
    (hx : (handlerStep cfg s ch).parse_mode = false) :
    frameOf (handlerStep cfg s ch) = frameOf s := by
  cases hf : s.flag <;> simp only [handlerStep, hf] at hx ⊢
  · exact unknown_exit_frame cfg s ch hpm hx
  · rw [prefixStep_pm, hpm] at hx; exact absurd hx (by simp)
  · rw [prefixStep_pm, hpm] at hx; exact absurd hx (by simp)
  · exact block_exit_frame cfg s ch hpm hx
  · exact member_exit_frame cfg s ch hpm hx

theorem bump_frame (s : PState) (ch : Char) :
    (bump s ch).parse_mode = s.parse_mode ∧ (bump s ch).dead = s.dead ∧
    frameOf (bump s ch) = frameOf s := by
  unfold bump
  split <;> simp [frameOf]

theorem cleanup_dead (s : PState) : (cleanup s).dead = s.dead := by
  unfold cleanup
  split <;> rfl

theorem cleanup_pm (s : PState) : (cleanup s).parse_mode = s.parse_mode := by
  unfold cleanup
  split <;> rfl

theorem finish_props (cfg : Config) (s : PState) (ch : Char) :
    (finish cfg s ch).dead = s.dead ∧ (finish cfg s ch).parse_mode = s.parse_mode ∧
    (finish cfg s ch).hsel = s.hsel ∧ (finish cfg s ch).prefix_set = s.prefix_set ∧
    frameOf (finish cfg s ch) = frameOf s := by
  simp only [finish]
  split_ifs <;> simp [frameOf, apply_ite]

theorem frameOf_ssel {x y : PState} (h : frameOf x = frameOf y) : x.ssel = y.ssel :=
  congrArg Prod.fst h

theorem frameOf_ma_buf {x y : PState} (h : frameOf x = frameOf y) : x.ma_buf = y.ma_buf :=
  congrArg (fun p => p.2.1) h

theorem frameOf_ma_size {x y : PState} (h : frameOf x = frameOf y) : x.ma_size = y.ma_size :=
  congrArg (fun p => p.2.2.1) h

theorem frameOf_using_attrs {x y : PState} (h : frameOf x = frameOf y) :
    x.using_attrs = y.using_attrs :=
  congrArg (fun p => p.2.2.2) h

theorem step_exit_frame (cfg : Config) (s : PState) (ch : Char)
    (hd : s.dead = false) (hpm : s.parse_mode = true)
    (hd2 : (step cfg s ch).dead = false)
    (hx : (step cfg s ch).parse_mode = false) :
    (step cfg s ch).hsel = Sel.sticky ∧ (step cfg s ch).prefix_set = false ∧
    frameOf (step cfg s ch) = frameOf s := by
  have hs : step cfg s ch = finish cfg (cleanup (handlerStep cfg (bump s ch) ch)) ch := by
    simp only [step]
    rw [if_neg (by simp [hd]), if_neg (by simp [(bump_frame s ch).1, hpm])]
  rw [hs] at hd2 hx ⊢
  have fin := finish_props cfg (cleanup (handlerStep cfg (bump s ch) ch)) ch
  have hcd : (cleanup (handlerStep cfg (bump s ch) ch)).dead = false := by
    rw [← fin.1]; exact hd2
  have hcp : (cleanup (handlerStep cfg (bump s ch) ch)).parse_mode = false := by
    rw [← fin.2.1]; exact hx
  have hCd : (handlerStep cfg (bump s ch) ch).dead = false := by
    rw [← cleanup_dead]; exact hcd
  have hCp : (handlerStep cfg (bump s ch) ch).parse_mode = false := by
    rw [← cleanup_pm]; exact hcp
  have hcl : cleanup (handlerStep cfg (bump s ch) ch)
      = { handlerStep cfg (bump s ch) ch with
          hsel := Sel.sticky, prefix_set := false, copying := true } := by
    unfold cleanup
    rw [if_pos (by simp [hCd, hCp])]
  have hframe : frameOf (handlerStep cfg (bump s ch) ch) = frameOf s := by
    have h1 := handler_exit_frame cfg (bump s ch) ch
      (by rw [(bump_frame s ch).1, hpm]) hCp
    rw [h1, (bump_frame s ch).2.2]
  refine ⟨?_, ?_, ?_⟩
  · rw [fin.2.2.1, hcl]
  · rw [fin.2.2.2.1, hcl]
  · rw [fin.2.2.2.2, hcl]
    · rw [← hframe]
      rfl
theorem bump_proj (s : PState) (ch : Char) :
    bump s ch = { s with col := if ch = '\n' then 0 else s.col + 1,
                         line := if ch = '\n' then s.line + 1 else s.line } := by
  unfold bump
  split <;> simp_all

theorem search_step_clean (cfg : Config) (ht : cfg.token ≠ []) (s : PState) (c : Char)
    (hd : s.dead = false) (hpm : s.parse_mode = false) (hti : s.token_read_idx = 0)
    (hcp : s.copying = true) (hsk : s.skip_char = false)
    (hns : s.line_start = true → c ≠ tokenChar cfg 0) :
    (step cfg s c).dead = false ∧ (step cfg s c).parse_mode = false ∧
    (step cfg s c).token_read_idx = 0 ∧ (step cfg s c).copying = true ∧
    (step cfg s c).skip_char = false ∧ (step cfg s c).line_start = (c == '\n') ∧
    (step cfg s c).out = s.out ++ (if cfg.strip then [c] else []) := by
  have hstep : step cfg s c = finish cfg (searchStep cfg (bump s c) c) c := by
    simp only [step]
    rw [if_neg (by simp [hd]), if_pos (by simp [(bump_frame s c).1, hpm])]
  have hb := bump_proj s c
  have hlen : ¬ ((0 : Nat) = cfg.token.length) := by
    intro h
    exact ht (List.length_eq_zero.mp h.symm)
  have hss : searchStep cfg (bump s c) c = bump s c := by
    unfold searchStep
    rw [hb]
    by_cases hls : s.line_start
    · simp only [hls, hti]
      rw [if_pos (by simp)]
      rw [if_neg (hns hls)]
      rw [if_neg hlen]
      simp [hcp, hti]
    · have hls2 : s.line_start = false := by simpa using hls
      simp [hls2, hti]
  rw [hstep, hss]
  unfold finish
  rw [hb]
  simp [hd, hcp, hsk, hpm, hti]
  split_ifs <;> simp_all

theorem search_step_stale (cfg : Config) (ht : cfg.token ≠ []) (s : PState) (c : Char)
    (hd : s.dead = false) (hpm : s.parse_mode = false)
    (hti : s.token_read_idx = cfg.token.length)
    (hcp : s.copying = true) (hsk : s.skip_char = false)
    (hns : c ≠ tokenChar cfg cfg.token.length) :
    (step cfg s c).dead = false ∧ (step cfg s c).parse_mode = false ∧
    (step cfg s c).token_read_idx = 0 ∧ (step cfg s c).copying = true ∧
    (step cfg s c).skip_char = false ∧ (step cfg s c).line_start = (c == '\n') ∧
    (step cfg s c).out = s.out ++ (if cfg.strip then [c] else []) := by
  have hstep : step cfg s c = finish cfg (searchStep cfg (bump s c) c) c := by
    simp only [step]
    rw [if_neg (by simp [hd]), if_pos (by simp [(bump_frame s c).1, hpm])]
  have hb := bump_proj s c
  have hlen : ¬ ((0 : Nat) = cfg.token.length) := by
    intro h
    exact ht (List.length_eq_zero.mp h.symm)
  have hpos : 0 < cfg.token.length := Nat.pos_of_ne_zero fun h => ht (List.length_eq_zero.mp h)
  have hss : searchStep cfg (bump s c) c
      = { bump s c with token_read_idx := 0, copying := true } := by
    unfold searchStep
    rw [hb]
    simp only [hti]
    rw [if_pos (by simp [hpos])]
    rw [if_neg hns]
    rw [if_neg hlen]
  rw [hstep, hss]
  unfold finish
  rw [hb]
  simp [hd, hcp, hsk, hpm]
  split_ifs <;> simp_all

theorem search_run (cfg : Config) (ht : cfg.token ≠ []) :
    ∀ (src : List Char) (s : PState),
    s.dead = false → s.parse_mode = false → s.token_read_idx = 0 →
    s.copying = true → s.skip_char = false →
    noFalseStart (tokenChar cfg 0) s.line_start src = true →
    (List.foldl (step cfg) s src).dead = false ∧
    (List.foldl (step cfg) s src).parse_mode = false ∧
    (List.foldl (step cfg) s src).token_read_idx = 0 ∧
    (List.foldl (step cfg) s src).copying = true ∧
    (List.foldl (step cfg) s src).skip_char = false ∧
    (List.foldl (step cfg) s src).out = s.out ++ (if cfg.strip then src else [])
  | [], s, hd, hpm, hti, hcp, hsk, _ => by
    simp [hd, hpm, hti, hcp, hsk]
  | c :: r, s, hd, hpm, hti, hcp, hsk, hnf => by
    have hnf2 : (!s.line_start || !(c == tokenChar cfg 0)) = true
        ∧ noFalseStart (tokenChar cfg 0) (c == '\n') r = true := by
      simpa [noFalseStart, Bool.and_eq_true] using hnf
    have hone := search_step_clean cfg ht s c hd hpm hti hcp hsk (by
      intro hls hceq
      rcases Bool.or_eq_true_iff.mp hnf2.1 with h | h
      · rw [hls] at h
        simp at h
      · rw [hceq] at h
        simp at h)
    have hrec := search_run cfg ht r (step cfg s c) hone.1 hone.2.1 hone.2.2.1
      hone.2.2.2.1 hone.2.2.2.2.1 (by rw [hone.2.2.2.2.2.1]; exact hnf2.2)
    refine ⟨hrec.1, hrec.2.1, hrec.2.2.1, hrec.2.2.2.1, hrec.2.2.2.2.1, ?_⟩
    rw [List.foldl_cons] at *
    rw [hrec.2.2.2.2.2, hone.2.2.2.2.2.2]
    by_cases hstrip : cfg.strip <;> simp [hstrip]

theorem post_run (cfg : Config) (ht : cfg.token ≠ []) (src : List Char) (s : PState)
    (hd : s.dead = false) (hpm : s.parse_mode = false)
    (hti : s.token_read_idx = cfg.token.length)
    (hcp : s.copying = true) (hsk : s.skip_char = false)
    (hct : cleanTail cfg src = true) :
    (List.foldl (step cfg) s src).dead = false ∧
    (List.foldl (step cfg) s src).out = s.out ++ (if cfg.strip then src else []) := by
  cases src with
  | nil => simp [hd]
  | cons c r =>
    have hct2 : (!(c == tokenChar cfg cfg.token.length)) = true
        ∧ noFalseStart (tokenChar cfg 0) (c == '\n') r = true := by
      simpa [cleanTail, Bool.and_eq_true] using hct
    have hone := search_step_stale cfg ht s c hd hpm hti hcp hsk (by
      intro hceq
      rw [hceq] at hct2
      simp at hct2)
    have hrec := search_run cfg ht r (step cfg s c) hone.1 hone.2.1 hone.2.2.1
      hone.2.2.2.1 hone.2.2.2.2.1 (by rw [hone.2.2.2.2.2.1]; exact hct2.2)
    refine ⟨by rw [List.foldl_cons]; exact hrec.1, ?_⟩
    rw [List.foldl_cons, hrec.2.2.2.2.2, hone.2.2.2.2.2.2]
    by_cases hstrip : cfg.strip <;> simp [hstrip]

theorem member_step_one (cfg : Config) (hst : cfg.strip = false) (s : PState) (c : Char)
    (hd : s.dead = false) (hpm : s.parse_mode = true) (hf : s.flag = Flag.member)
    (hls : s.line_start = false) (hsk : s.skip_char = false)
    (hnl : c ≠ '\n') (hc1 : c ≠ ';') (hc2 : c ≠ '=') (hc3 : c ≠ '\x7b')
    (hlen : s.m_buf.length ≠ 512) :
    step cfg s c = { s with m_buf := s.m_buf ++ [c], col := s.col + 1 } := by
  have hstep : step cfg s c = finish cfg (cleanup (handlerStep cfg (bump s c) c)) c := by
    simp only [step]
    rw [if_neg (by simp [hd]), if_neg (by simp [(bump_frame s c).1, hpm])]
  have hb := bump_proj s c
  have hbf : (bump s c).flag = Flag.member := by rw [hb]; exact hf
  have hmem : handlerStep cfg (bump s c) c
      = { bump s c with m_buf := (bump s c).m_buf ++ [c] } := by
    simp only [handlerStep]
    rw [hbf]
    simp only [memberStep]
    rw [if_neg hc1, if_neg (by simp [hc2, hc3]), if_neg (by rw [hb]; exact hlen)]
    rw [hbf]
  have hcl : cleanup (handlerStep cfg (bump s c) c) = handlerStep cfg (bump s c) c := by
    unfold cleanup
    rw [if_neg (by rw [hmem, hb]; simp [hpm])]
  rw [hstep, hcl, hmem]
  unfold finish
  rw [hb]
  simp [hd, hst, hsk, hls, hnl]

theorem member_run (cfg : Config) (hst : cfg.strip = false) :
    ∀ (name : List Char) (s : PState),
    s.dead = false → s.parse_mode = true → s.flag = Flag.member →
    s.line_start = false → s.skip_char = false →
    s.m_buf.length + name.length ≤ 512 →
    (∀ c ∈ name, c ≠ ';' ∧ c ≠ '=' ∧ c ≠ '\x7b' ∧ c ≠ '\n') →
    List.foldl (step cfg) s name
      = { s with m_buf := s.m_buf ++ name, col := s.col + name.length }
  | [], s, hd, hpm, hf, hls, hsk, hbnd, hcs => by simp
  | c :: r, s, hd, hpm, hf, hls, hsk, hbnd, hcs => by
    have hc := hcs c (by simp)
    have hlen : s.m_buf.length ≠ 512 := by
      simp only [List.length_cons] at hbnd
      omega
    have hone := member_step_one cfg hst s c hd hpm hf hls hsk hc.2.2.2 hc.1 hc.2.1
      hc.2.2.1 hlen
    have hrec := member_run cfg hst r { s with m_buf := s.m_buf ++ [c], col := s.col + 1 }
      hd hpm hf hls hsk (by simp only [List.length_append, List.length_cons, List.length_nil] at hbnd ⊢; omega)
      (fun d hdm => hcs d (by simp [hdm]))
    rw [List.foldl_cons, hone, hrec]
    simp [List.append_assoc]
    omega

theorem unknown_member_entry (cfg : Config) (hst : cfg.strip = false) (s : PState) (c : Char)
    (hd : s.dead = false) (hpm : s.parse_mode = true) (hf : s.flag = Flag.unknown)
    (hsk : s.skip_char = false)
    (h1 : c ≠ '\x7b') (h2 : c ≠ '(') (h3 : c ≠ '[') (h4 : c ≠ '\t') (h5 : c ≠ ' ')
    (h6 : c ≠ '=') (h7 : c ≠ ';') (h8 : c ≠ ')') (h9 : c ≠ ']') (h10 : c ≠ '\x7d')
    (h11 : c ≠ '\n') :
    step cfg s c = { s with m_buf := [c], flag := Flag.member, l := s.line,
                            col := s.col + 1, line_start := false } := by
  have hstep : step cfg s c = finish cfg (cleanup (handlerStep cfg (bump s c) c)) c := by
    simp only [step]
    rw [if_neg (by simp [hd]), if_neg (by simp [(bump_frame s c).1, hpm])]
  have hb := bump_proj s c
  have hbf : (bump s c).flag = Flag.unknown := by rw [hb]; exact hf
  have hun : handlerStep cfg (bump s c) c
      = { bump s c with m_buf := [c], flag := Flag.member, l := (bump s c).line } := by
    simp only [handlerStep]
    rw [hbf]
    simp only [unknownStep]
    rw [if_neg h1, if_neg h2, if_neg h3, if_neg (by simp [h4, h5]),
        if_neg (by simp [h6, h7, h8, h9, h10]), if_neg h11, if_pos (by simp [hst])]
  have hcl : cleanup (handlerStep cfg (bump s c) c) = handlerStep cfg (bump s c) c := by
    unfold cleanup
    rw [if_neg (by rw [hun, hb]; simp [hpm])]
  rw [hstep, hcl, hun]
  unfold finish
  rw [hb]
  simp [hd, hst, hsk, h11]

theorem member_close_brace (cfg : Config) (hst : cfg.strip = false) (s : PState) (c : Char)
    (hc : c = '\x7b' ∨ c = '=')
    (hd : s.dead = false) (hpm : s.parse_mode = true) (hf : s.flag = Flag.member)
    (hsk : s.skip_char = false) :
    step cfg s c
      = { s with
          out := s.out ++ emit_line cfg s.l
            ++ (if (prefixStr s).isEmpty then [] else prefixStr s ++ [' '])
            ++ s.m_buf.take (s.m_buf.length - wsCount s.m_buf.reverse)
            ++ emitAttrs cfg s ++ (";").data ++ ['\n'],
          parse_mode := false, hsel := Sel.sticky, prefix_set := false,
          copying := true, col := s.col + 1, line_start := false,
          skip_char := false } := by
  have hnl : c ≠ '\n' := by rcases hc with h | h <;> rw [h] <;> decide
  have hstep : step cfg s c = finish cfg (cleanup (handlerStep cfg (bump s c) c)) c := by
    simp only [step]
    rw [if_neg (by simp [hd]), if_neg (by simp [(bump_frame s c).1, hpm])]
  have hb := bump_proj s c
  have hbf : (bump s c).flag = Flag.member := by rw [hb]; exact hf
  have hns : c ≠ ';' := by rcases hc with h | h <;> rw [h] <;> decide
  have hmem : handlerStep cfg (bump s c) c
      = { bump s c with
          out := (bump s c).out ++ emit_line cfg (bump s c).l
            ++ (if (prefixStr (bump s c)).isEmpty then []
                else prefixStr (bump s c) ++ [' '])
            ++ (bump s c).m_buf.take
                ((bump s c).m_buf.length - wsCount (bump s c).m_buf.reverse)
            ++ emitAttrs cfg (bump s c) ++ (";").data ++ ['\n'],
          parse_mode := false } := by
    simp only [handlerStep]
    rw [hbf]
    simp only [memberStep]
    rw [if_neg hns, if_pos (by rcases hc with h | h <;> simp [h])]
    simp [hst]
    exact hbf
  have hcl : cleanup (handlerStep cfg (bump s c) c)
      = { handlerStep cfg (bump s c) c with
          hsel := Sel.sticky, prefix_set := false, copying := true } := by
    unfold cleanup
    rw [if_pos (by rw [hmem, hb]; simp [hd])]
  rw [hstep, hcl, hmem]
  unfold finish
  rw [hb]
  simp [hd, hst, hsk, hnl]
  rfl

theorem prefix_step_one (cfg : Config) (s : PState) (c : Char)
    (hd : s.dead = false) (hpm : s.parse_mode = true) (hf : s.flag = Flag.hpre)
    (ha : s.a = 0) (hls : s.line_start = false) (hsk : s.skip_char = false)
    (hcp : s.copying = false)
    (hc1 : c ≠ ')') (hc2 : c ≠ ']') (hc3 : c ≠ '[') (hc4 : c ≠ '\n')
    (hlen : s.m_buf.length ≠ 126) :
    step cfg s c = { s with m_buf := s.m_buf ++ [c], col := s.col + 1 } := by
  have hstep : step cfg s c = finish cfg (cleanup (handlerStep cfg (bump s c) c)) c := by
    simp only [step]
    rw [if_neg (by simp [hd]), if_neg (by simp [(bump_frame s c).1, hpm])]
  have hb := bump_proj s c
  have hbf : (bump s c).flag = Flag.hpre := by rw [hb]; exact hf
  have hcpy : copyPre (bump s c) c = { bump s c with m_buf := (bump s c).m_buf ++ [c] } := by
    unfold copyPre
    rw [if_neg (by rw [hb]; exact hlen)]
  have hpre : handlerStep cfg (bump s c) c
      = { bump s c with m_buf := (bump s c).m_buf ++ [c] } := by
    simp only [handlerStep]
    rw [hbf]
    simp only [prefixStep]
    rw [if_neg hc1, if_neg hc2]
    by_cases hpar : c = '('
    · rw [if_pos hpar, if_neg (by rw [hb]; simp [ha])]
      rw [← hbf]
      exact hcpy
    · rw [if_neg hpar, if_neg hc3, if_neg hc4]
      rw [← hbf]
      exact hcpy
  have hcl : cleanup (handlerStep cfg (bump s c) c) = handlerStep cfg (bump s c) c := by
    unfold cleanup
    rw [if_neg (by rw [hpre, hb]; simp [hpm])]
  rw [hstep, hcl, hpre]
  unfold finish
  rw [hb]
  simp [hd, hcp, hsk, hls, hc4]

theorem prefix_run (cfg : Config) :
    ∀ (chars : List Char) (s : PState),
    s.dead = false → s.parse_mode = true → s.flag = Flag.hpre →
    s.a = 0 → s.line_start = false → s.skip_char = false → s.copying = false →
    s.m_buf.length + chars.length ≤ 126 →
    (∀ c ∈ chars, c ≠ ')' ∧ c ≠ ']' ∧ c ≠ '[' ∧ c ≠ '\n') →
    List.foldl (step cfg) s chars
      = { s with m_buf := s.m_buf ++ chars, col := s.col + chars.length }
  | [], s, hd, hpm, hf, ha, hls, hsk, hcp, hbnd, hcs => by simp
  | c :: r, s, hd, hpm, hf, ha, hls, hsk, hcp, hbnd, hcs => by
    have hc := hcs c (by simp)
    have hlen : s.m_buf.length ≠ 126 := by
      simp only [List.length_cons] at hbnd
      omega
    have hone := prefix_step_one cfg s c hd hpm hf ha hls hsk hcp
      hc.1 hc.2.1 hc.2.2.1 hc.2.2.2 hlen
    have hrec := prefix_run cfg r { s with m_buf := s.m_buf ++ [c], col := s.col + 1 }
      hd hpm hf ha hls hsk hcp
      (by simp only [List.length_append, List.length_cons, List.length_nil] at hbnd ⊢; omega)
      (fun d hdm => hcs d (by simp [hdm]))
    rw [List.foldl_cons, hone, hrec]
    simp [List.append_assoc]
    omega

theorem cpyChar_dead (s : PState) (ch : Char) : (cpyChar s ch).dead = s.dead := by
  simp only [cpyChar]
  split <;> rfl

theorem cpyChar_flag (s : PState) (ch : Char) : (cpyChar s ch).flag = s.flag := by
  simp only [cpyChar]
  split <;> rfl

theorem cpyChar_copying (s : PState) (ch : Char) : (cpyChar s ch).copying = s.copying := by
  simp only [cpyChar]
  split <;> rfl

theorem cpyChar_out (s : PState) (ch : Char) : (cpyChar s ch).out = s.out := by
  simp only [cpyChar]
  split <;> rfl

set_option maxHeartbeats 1000000 in
theorem cpyChar_diags (s : PState) (ch : Char) : (cpyChar s ch).diags = s.diags := by
  simp only [cpyChar]
  split <;> rfl

set_option maxHeartbeats 1000000 in
theorem blockStep_quiet (cfg : Config) (s : PState) (c : Char) (hbr : c ≠ '\x7d') :
    (blockStep cfg s c).dead = s.dead ∧ (blockStep cfg s c).parse_mode = s.parse_mode ∧
    (blockStep cfg s c).flag = s.flag ∧ (blockStep cfg s c).copying = s.copying ∧
    (blockStep cfg s c).out = s.out ∧ (blockStep cfg s c).diags = s.diags := by
  simp only [blockStep]
  split_ifs <;>
    simp_all [cpyChar_dead, cpyChar_pm, cpyChar_flag, cpyChar_copying, cpyChar_out,
      cpyChar_diags, apply_ite]

theorem block_step_quiet (cfg : Config) (s : PState) (c : Char)
    (hd : s.dead = false) (hpm : s.parse_mode = true) (hf : s.flag = Flag.block)
    (hcp : s.copying = false) (hsk : s.skip_char = false) (hbr : c ≠ '\x7d') :
    (step cfg s c).dead = false ∧ (step cfg s c).parse_mode = true ∧
    (step cfg s c).flag = Flag.block ∧ (step cfg s c).copying = false ∧
    (step cfg s c).skip_char = false ∧ (step cfg s c).out = s.out ∧
    (step cfg s c).diags = s.diags := by
  have hstep : step cfg s c = finish cfg (cleanup (handlerStep cfg (bump s c) c)) c := by
    simp only [step]
    rw [if_neg (by simp [hd]), if_neg (by simp [(bump_frame s c).1, hpm])]
  have hb := bump_proj s c
  have hbf : (bump s c).flag = Flag.block := by rw [hb]; exact hf
  have hh : handlerStep cfg (bump s c) c = blockStep cfg (bump s c) c := by
    simp only [handlerStep]
    rw [hbf]
  have hq := blockStep_quiet cfg (bump s c) c hbr
  have hqd : (blockStep cfg (bump s c) c).dead = false := by rw [hq.1, hb]; exact hd
  have hqp : (blockStep cfg (bump s c) c).parse_mode = true := by rw [hq.2.1, hb]; exact hpm
  have hqf : (blockStep cfg (bump s c) c).flag = Flag.block := by rw [hq.2.2.1, hb]; exact hf
  have hqc : (blockStep cfg (bump s c) c).copying = false := by
    rw [hq.2.2.2.1, hb]; exact hcp
  have hqo : (blockStep cfg (bump s c) c).out = s.out := by rw [hq.2.2.2.2.1, hb]
  have hqdg : (blockStep cfg (bump s c) c).diags = s.diags := by rw [hq.2.2.2.2.2, hb]
  have hcl : cleanup (handlerStep cfg (bump s c) c) = handlerStep cfg (bump s c) c := by
    unfold cleanup
    rw [if_neg (by rw [hh]; simp [hqp])]
  have hfin : finish cfg (blockStep cfg (bump s c) c) c
      = { blockStep cfg (bump s c) c with
          line_start := (c == '\n'), skip_char := false } := by
    unfold finish
    simp [hqd, hqc]
  rw [hstep, hcl, hh, hfin]
  exact ⟨hqd, hqp, hqf, hqc, rfl, hqo, hqdg⟩

theorem block_run_quiet (cfg : Config) :
    ∀ (chars : List Char) (s : PState),
    s.dead = false → s.parse_mode = true → s.flag = Flag.block →
    s.copying = false → s.skip_char = false →
    (∀ c ∈ chars, c ≠ '\x7d') →
    (List.foldl (step cfg) s chars).dead = false ∧
    (List.foldl (step cfg) s chars).out = s.out ∧
    (List.foldl (step cfg) s chars).diags = s.diags
  | [], s, hd, _, _, _, _, _ => ⟨hd, rfl, rfl⟩
  | c :: r, s, hd, hpm, hf, hcp, hsk, hcs => by
    have hone := block_step_quiet cfg s c hd hpm hf hcp hsk (hcs c (by simp))
    have hrec := block_run_quiet cfg r (step cfg s c) hone.1 hone.2.1 hone.2.2.1
      hone.2.2.2.1 hone.2.2.2.2.1 (fun d hdm => hcs d (by simp [hdm]))
    rw [List.foldl_cons]
    exact ⟨hrec.1, hrec.2.1.trans hone.2.2.2.2.2.1, hrec.2.2.trans hone.2.2.2.2.2.2⟩

theorem adjustFirst_zero (l : List Nat) : adjustFirst 0 l = l := by
  cases l <;> simp [adjustFirst]

theorem adjustFirst_adjustFirst (a b : Nat) (l : List Nat) :
    adjustFirst a (adjustFirst b l) = adjustFirst (a + b) l := by
  cases l <;> simp [adjustFirst] <;> omega

theorem replaceFirst_adjustFirst (n b : Nat) (l : List Nat) :
    replaceFirst n (adjustFirst b l) = replaceFirst n l := by
  cases l <;> simp [adjustFirst, replaceFirst]

theorem adjustFirst_replaceFirst (n : Nat) (l : List Nat) :
    adjustFirst n (replaceFirst 0 l) = replaceFirst n l := by
  cases l <;> simp [adjustFirst, replaceFirst]

theorem replaceFirst_replaceFirst (n m : Nat) (l : List Nat) :
    replaceFirst n (replaceFirst m l) = replaceFirst n l := by
  cases l <;> simp [replaceFirst]

theorem leastScan_spec (rest : List Char) : ∀ (num least : Nat) (rs ms : Bool),
    leastScan rest num rs ms least
      = (if ms then
           headMin (if rs
             then adjustFirst num ((termLines rest).map lineIndentWidth)
             else replaceFirst num ((termLines rest).map lineIndentWidth)) least
         else
           (if rs
             then adjustFirst num ((termLines rest).map lineIndentWidth)
             else replaceFirst num ((termLines rest).map lineIndentWidth)).foldl
             min least) := by
  induction rest with
  | nil =>
    intro num least rs ms
    cases rs <;> cases ms <;>
      simp [leastScan, termLines, adjustFirst, replaceFirst, headMin]
  | cons c r ih =>
    intro num least rs ms
    by_cases hsp : c = ' '
    · subst hsp
      have hlw : (termLines (' ' :: r)).map lineIndentWidth
          = adjustFirst 1 ((termLines r).map lineIndentWidth) := by
        cases htl : termLines r <;>
          simp [termLines, htl, adjustFirst, lineIndentWidth, Nat.add_comm]
      rw [hlw]
      cases rs
      · rw [show leastScan (' ' :: r) num false ms least
            = leastScan r num false ms least from by simp [leastScan]]
        rw [ih num least false ms]
        cases ms <;> simp [replaceFirst_adjustFirst]
      · rw [show leastScan (' ' :: r) num true ms least
            = leastScan r (num + 1) true ms least from by simp [leastScan]]
        rw [ih (num + 1) least true ms]
        cases ms <;> simp [adjustFirst_adjustFirst, Nat.add_comm]
    · by_cases htb : c = '\t'
      · subst htb
        have hlw : (termLines ('\t' :: r)).map lineIndentWidth
            = adjustFirst 4 ((termLines r).map lineIndentWidth) := by
          cases htl : termLines r <;>
            simp [termLines, htl, adjustFirst, lineIndentWidth, Nat.add_comm]
        rw [hlw]
        cases rs
        · rw [show leastScan ('\t' :: r) num false ms least
              = leastScan r num false ms least from by simp [leastScan]]
          rw [ih num least false ms]
          cases ms <;> simp [replaceFirst_adjustFirst]
        · rw [show leastScan ('\t' :: r) num true ms least
              = leastScan r (num + 4) true ms least from by simp [leastScan]]
          rw [ih (num + 4) least true ms]
          cases ms <;> simp [adjustFirst_adjustFirst, Nat.add_comm]
      · by_cases hnl : c = '\n'
        · subst hnl
          have hlw : (termLines ('\n' :: r)).map lineIndentWidth
              = 0 :: (termLines r).map lineIndentWidth := by
            simp [termLines, lineIndentWidth]
          rw [hlw]
          have hx : (if rs then adjustFirst num (0 :: (termLines r).map lineIndentWidth)
              else replaceFirst num (0 :: (termLines r).map lineIndentWidth))
              = num :: (termLines r).map lineIndentWidth := by
            cases rs <;> simp [adjustFirst, replaceFirst]
          rw [show leastScan ('\n' :: r) num rs ms least
              = (if least > num || ms then leastScan r 0 true false num
                 else leastScan r 0 true ms least) from by cases rs <;> simp [leastScan]]
          rw [hx]
          have hadv : ∀ x : Nat, leastScan r 0 true false x
              = ((termLines r).map lineIndentWidth).foldl min x := by
            intro x
            rw [ih 0 x true false]
            simp [adjustFirst_zero]
          cases ms
          · by_cases hgt : least > num
            · rw [if_pos (by simp [hgt]), hadv]
              simp only [Bool.false_eq_true, if_false]
              rw [List.foldl_cons]
              congr 1
              omega
            · rw [if_neg (by simp [hgt]), hadv]
              simp only [Bool.false_eq_true, if_false]
              rw [List.foldl_cons]
              congr 1
              omega
          · rw [if_pos (by simp), hadv]
            simp [headMin]
        · have hlw : (termLines (c :: r)).map lineIndentWidth
              = replaceFirst 0 ((termLines r).map lineIndentWidth) := by
            cases htl : termLines r <;>
              simp [termLines, htl, hnl, replaceFirst, lineIndentWidth, hsp, htb]
          rw [hlw]
          rw [show leastScan (c :: r) num rs ms least = leastScan r num false ms least
              from by cases rs <;> simp [leastScan, hsp, htb, hnl]]
          rw [ih num least false ms]
          cases ms <;> simp [adjustFirst_replaceFirst, replaceFirst_replaceFirst]


/-- C1 (the claim states the intended behaviour; the code breaks it): in
strip mode a newline consumed in the UNKNOWN state of an annotation is
never echoed, so newline counts are not preserved.  On the source made
of a bare token line followed by an empty line the parse succeeds and
writes only the initial #line directive: the source holds two newline
bytes, the whole destination one. -/
theorem c1_strip_loses_newlines :
    (parse stripCfg (("@\n\n").data)).dead = false ∧
    (parse stripCfg (("@\n\n").data)).out = emit_line stripCfg 1 ∧
    (("@\n\n").data.count '\n') = 2 ∧
    ((emit_line stripCfg 1).count '\n') = 1 := by
  decide

/-- C2 (the claim states the documented behaviour; the code hardcodes 4):
block indentation trimming counts every tab as 4 columns regardless of
the configured tab-indent size.  With size 8 the single-tab line
measures 4, not 8, and in the mixed body the double-tab line is trimmed
flat where counting a tab as 8 columns would leave one tab of
indentation on it. -/
theorem c2_tab_counted_as_four :
    leastNumSpaces hdrCfg8 (("\tx\n").data) = 4 ∧
    (parse hdrCfg8 (("@ \x7b\n\t\tx\n        y\n\x7d\n").data)).out
      = (("#line 2 \"s\"\nx\ny\n\n").data) := by
  decide

/-- C3 counterexample: after the annotation carrying the per-annotation
source prefix b terminates, the sprefix pointer still selects the
per-annotation buffer, and the next annotation, which sets no prefix of
its own, is stripped with the stale b prefix. -/
theorem c3_source_prefix_persists :
    (parse stripCfg (("@[a][b] x;").data)).parse_mode = false ∧
    (parse stripCfg (("@[a][b] x;").data)).ssel = Sel.perAnn ∧
    (parse stripCfg (("@[a][b] x;\n@ y;\n").data)).out
      = (("#line 1 \"s\"\nb x;\nb y;\n").data) := by
  decide

/-- C3 (amended): whenever a step leaves parse mode without an error the
header prefix pointer reverts to the sticky buffer and prefix_set
clears, while the source prefix pointer keeps its value; and a sticky
header prefix committed at an earlier line applies to an annotation
starting at a later line, as on the concrete two-annotation source. -/
theorem c3_prefix_reset_amended :
    (∀ (cfg : Config) (s : PState) (ch : Char),
      s.dead = false → s.parse_mode = true →
      (step cfg s ch).dead = false → (step cfg s ch).parse_mode = false →
      (step cfg s ch).hsel = Sel.sticky ∧ (step cfg s ch).prefix_set = false ∧
        (step cfg s ch).ssel = s.ssel) ∧
    (parse hdrCfg (("@[static]\n\n@ int x = 3;\n").data)).out
      = (("#line 3 \"s\"\nstatic int x;\n").data) :=
  ⟨fun cfg s ch hd hpm hd2 hx =>
    ⟨(step_exit_frame cfg s ch hd hpm hd2 hx).1,
     (step_exit_frame cfg s ch hd hpm hd2 hx).2.1,
     frameOf_ssel (step_exit_frame cfg s ch hd hpm hd2 hx).2.2⟩,
   by decide⟩

/-- C4 (the claim states the intended propagation; the code lacks the
return): a header prefix whose attribute sub-expression holds a single
unmatched colon makes parse print one syntax diagnostic, yet the call is
not aborted: it runs on and ends in success. -/
theorem c4_dangling_colon_not_fatal :
    (parse hdrCfg (("@[:p q]\n").data)).diags = 1 ∧
    (parse hdrCfg (("@[:p q]\n").data)).dead = false := by
  decide

/-- C5 counterexample: an empty line inside an otherwise uniformly
indented block body is recorded with width 0, so least_num_spaces is 0
and the body is emitted verbatim, still indented, where the claim would
have the blank line ignored and the body trimmed by four columns. -/
theorem c5_blank_line_disables_trim :
    leastNumSpaces hdrCfg (("    a;\n\n    b;\n").data) = 0 ∧
    (parse hdrCfg (("@ \x7b\n    a;\n\n    b;\n\x7d\n").data)).out
      = (("#line 2 \"s\"\n    a;\n\n    b;\n\n").data) := by
  decide

/-- C5 (amended): least_num_spaces is the minimum leading-indentation
width, a tab counting 4 columns, over ALL newline-terminated lines of
the block body, blank lines included (an empty line contributes 0); a
final fragment not terminated by a newline contributes nothing.  The
scan of the code equals this specification under the default
configuration. -/
theorem c5_least_spaces_all_lines (body : List Char) :
    leastNumSpaces hdrCfg body = specLeast body := by
  unfold leastNumSpaces
  rw [if_pos (by decide)]
  rw [leastScan_spec body 0 0 true true]
  simp only [if_pos rfl, adjustFirst_zero]
  cases htl : (termLines body).map lineIndentWidth <;> simp [headMin, specLeast, htl]

/-- C6 counterexample: after a bare token followed by a newline the
parser is still in parse mode, and the text of the next line is parsed
as the annotation body: a declaration is emitted, where the claim would
have the annotation be a no-op with empty header output. -/
theorem c6_newline_stays_parsing :
    (parse hdrCfg (("@\n").data)).parse_mode = true ∧
    (parse hdrCfg (("@\nint x;\n").data)).out
      = (("#line 2 \"s\"\nint x;\n").data) := by
  decide

/-- C6 (amended): a newline read in the UNKNOWN state before any prefix
has been set is ignored: apart from position tracking the state is
unchanged, the parser stays in parse mode, and the annotation continues
with the following bytes. -/
theorem c6_unknown_newline_ignored (cfg : Config) (s : PState)
    (hd : s.dead = false) (hpm : s.parse_mode = true) (hf : s.flag = Flag.unknown)
    (hps : s.prefix_set = false) (hcp : s.copying = false) :
    step cfg s '\n' = { s with line := s.line + 1, col := 0,
                               line_start := true, skip_char := false } := by
  have hstep : step cfg s '\n'
      = finish cfg (cleanup (handlerStep cfg (bump s '\n') '\n')) '\n' := by
    simp only [step]
    rw [if_neg (by simp [hd]), if_neg (by simp [(bump_frame s '\n').1, hpm])]
  have hb := bump_proj s '\n'
  have hbf : (bump s '\n').flag = Flag.unknown := by rw [hb]; exact hf
  have hbps : (bump s '\n').prefix_set = false := by rw [hb]; exact hps
  have hun : handlerStep cfg (bump s '\n') '\n' = bump s '\n' := by
    simp only [handlerStep]
    rw [hbf]
    simp [unknownStep, hbps]
  have hcl : cleanup (handlerStep cfg (bump s '\n') '\n')
      = handlerStep cfg (bump s '\n') '\n' := by
    unfold cleanup
    rw [if_neg (by rw [hun, hb]; simp [hpm])]
  rw [hstep, hcl, hun]
  unfold finish
  rw [hb]
  simp [hd, hcp]

/-- C6 witness: the amended statement applied to a concrete state in the
UNKNOWN parse state with no prefix set. -/
theorem c6_unknown_newline_ignored_witness :
    step stripCfg { initState with parse_mode := true, copying := false } '\n'
      = { initState with parse_mode := true, copying := false, line := 2, col := 0,
                         line_start := true } := by
  rw [c6_unknown_newline_ignored stripCfg
      { initState with parse_mode := true, copying := false } rfl rfl rfl rfl rfl]
  decide

/-- C7 counterexample: with the two-byte token ab the source ax has no
line beginning with the token, yet strip mode swallows the a of the
false start: the destination is the directive followed by x, not by the
source. -/
theorem c7_multibyte_token_false_start :
    ((abStripCfg.token.isPrefixOf (("ax\n").data)) = false) ∧
    (parse abStripCfg (("ax\n").data)).out = (("#line 1 \"s\"\nx\n").data) ∧
    (parse abStripCfg (("ax\n").data)).out ≠ emit_line abStripCfg 1 ++ (("ax\n").data) := by
  decide

/-- C7 (amended): in strip mode any source in which no line begins with
the FIRST byte of the non-empty sentinel token - for the default
one-byte token exactly the sources in which no line begins with the
token - is emitted byte-for-byte unchanged after the single initial
#line 1 directive, and the parse succeeds. -/
theorem c7_no_annotation_roundtrip (cfg : Config) (src : List Char)
    (h1 : cfg.strip = true) (h2 : cfg.token ≠ [])
    (h3 : noFalseStart (tokenChar cfg 0) true src = true) :
    (parse cfg src).out = emit_line cfg 1 ++ src ∧ (parse cfg src).dead = false := by
  unfold parse
  rw [if_pos h1]
  have hrun := search_run cfg h2 src { initState with out := emit_line cfg 1 }
    rfl rfl rfl rfl rfl h3
  exact ⟨by rw [hrun.2.2.2.2.2]; simp [h1], hrun.1⟩

/-- C7 witness: the round trip at the default strip configuration on a
small ordinary C source. -/
theorem c7_no_annotation_roundtrip_witness :
    (parse stripCfg (("int main(void);\n").data)).out
      = emit_line stripCfg 1 ++ (("int main(void);\n").data) ∧
    (parse stripCfg (("int main(void);\n").data)).dead = false :=
  c7_no_annotation_roundtrip stripCfg (("int main(void);\n").data) rfl
    (by decide) (by decide)

/-- C8: in header mode a member terminated by an opening brace or an
equals sign is emitted as a declaration: the #line directive carrying
the line of the first member byte (line 1 here), then the accumulated
member text with the trailing whitespace stripped - the header prefix
and attribute list being empty in this run - then a semicolon and a
newline; the bytes after the terminator produce nothing. -/
theorem c8_member_terminator_decl (c0 t : Char) (name tail : List Char)
    (ht : t = '\x7b' ∨ t = '=')
    (g1 : c0 ≠ '\x7b') (g2 : c0 ≠ '(') (g3 : c0 ≠ '[') (g4 : c0 ≠ '\t')
    (g5 : c0 ≠ ' ') (g6 : c0 ≠ '=') (g7 : c0 ≠ ';') (g8 : c0 ≠ ')')
    (g9 : c0 ≠ ']') (g10 : c0 ≠ '\x7d') (g11 : c0 ≠ '\n')
    (h1 : ∀ c ∈ name, c ≠ ';' ∧ c ≠ '=' ∧ c ≠ '\x7b' ∧ c ≠ '\n')
    (h2 : name.length ≤ 500)
    (h3 : wsCount (c0 :: name).reverse = 0)
    (h4 : cleanTail hdrCfg tail = true) :
    (parse hdrCfg ('@' :: ' ' :: c0 :: (name ++ (' ' :: t :: tail)))).out
      = emit_line hdrCfg 1 ++ (c0 :: name) ++ (";").data ++ ['\n'] ∧
    (parse hdrCfg ('@' :: ' ' :: c0 :: (name ++ (' ' :: t :: tail)))).dead
      = false := by
  have e0 : parse hdrCfg ('@' :: ' ' :: c0 :: (name ++ (' ' :: t :: tail)))
      = List.foldl (step hdrCfg)
          (step hdrCfg (step hdrCfg initState '@') ' ')
          (c0 :: (name ++ (' ' :: t :: tail))) := rfl
  rw [e0, List.foldl_cons]
  rw [unknown_member_entry hdrCfg rfl (step hdrCfg (step hdrCfg initState '@') ' ') c0
      rfl rfl rfl rfl g1 g2 g3 g4 g5 g6 g7 g8 g9 g10 g11]
  rw [List.foldl_append]
  rw [member_run hdrCfg rfl name _ rfl rfl rfl rfl rfl
      (by rw [show (step hdrCfg (step hdrCfg initState '@') ' ').line = 1 from rfl]
          simp
          omega) h1]
  rw [List.foldl_cons]
  rw [member_step_one hdrCfg rfl _ ' ' rfl rfl rfl rfl rfl (by decide) (by decide)
      (by decide) (by decide) (by simp; omega)]
  rw [List.foldl_cons]
  rw [member_close_brace hdrCfg rfl _ t ht rfl rfl rfl rfl]
  constructor
  · rw [(post_run hdrCfg (by decide) tail _ rfl rfl rfl rfl rfl h4).2]
    have h3b : wsCount (name.reverse ++ [c0]) = 0 := by simpa using h3
    have e1 : (step hdrCfg (step hdrCfg initState '@') ' ').out = [] := rfl
    have e2 : (step hdrCfg (step hdrCfg initState '@') ' ').line = 1 := rfl
    have e3 : (step hdrCfg (step hdrCfg initState '@') ' ').hsel = Sel.sticky := rfl
    have e4 : (step hdrCfg (step hdrCfg initState '@') ' ').set_prefix_buf = [] := rfl
    have e5 : (step hdrCfg (step hdrCfg initState '@') ' ').using_attrs = false := rfl
    have e6 : hdrCfg.strip = false := rfl
    simp [wsCount, List.reverse_append, h3b, prefixStr, emitAttrs, List.take_left,
      e1, e2, e3, e4, e5, e6]
  · exact (post_run hdrCfg (by decide) tail _ rfl rfl rfl rfl rfl h4).1

/-- C8 witness: the amended-free claim instantiated at the source
fragment of scenario S5, a function definition stripped to a
declaration. -/
theorem c8_member_terminator_decl_witness :
    (parse hdrCfg ('@' :: ' ' :: 'i' :: ((("nt g(int x)").data)
        ++ (' ' :: '\x7b' :: ((" return x+1; \x7d").data))))).out
      = emit_line hdrCfg 1 ++ ('i' :: (("nt g(int x)").data)) ++ ((";").data) ++ ['\n'] ∧
    (parse hdrCfg ('@' :: ' ' :: 'i' :: ((("nt g(int x)").data)
        ++ (' ' :: '\x7b' :: ((" return x+1; \x7d").data))))).dead = false :=
  c8_member_terminator_decl 'i' '\x7b' (("nt g(int x)").data)
    ((" return x+1; \x7d").data) (Or.inl rfl)
    (by decide) (by decide) (by decide) (by decide) (by decide) (by decide)
    (by decide) (by decide) (by decide) (by decide) (by decide)
    (by decide) (by decide) (by decide) (by decide)

/-- C9: a parse call that reaches end of stream in the middle of an
annotation still succeeds, prints no diagnostic and emits nothing for
the partial construct: a member cut short in header mode leaves the
destination empty, and a header prefix or block body cut short in strip
mode leaves exactly the initial #line directive, the consumed bytes not
echoed. -/
theorem c9_eof_partial_silent (s : List Char) :
    ((∀ c ∈ s, c ≠ ';' ∧ c ≠ '=' ∧ c ≠ '\x7b' ∧ c ≠ '\n') → s.length ≤ 500 →
      (parse hdrCfg ('@' :: 'x' :: s)).out = [] ∧
      (parse hdrCfg ('@' :: 'x' :: s)).dead = false ∧
      (parse hdrCfg ('@' :: 'x' :: s)).diags = 0) ∧
    ((∀ c ∈ s, c ≠ ')' ∧ c ≠ ']' ∧ c ≠ '[' ∧ c ≠ '\n') → s.length ≤ 126 →
      (parse stripCfg ('@' :: '[' :: s)).out = emit_line stripCfg 1 ∧
      (parse stripCfg ('@' :: '[' :: s)).dead = false ∧
      (parse stripCfg ('@' :: '[' :: s)).diags = 0) ∧
    ((∀ c ∈ s, c ≠ '\x7d') →
      (parse stripCfg ('@' :: '\x7b' :: s)).out = emit_line stripCfg 1 ∧
      (parse stripCfg ('@' :: '\x7b' :: s)).dead = false ∧
      (parse stripCfg ('@' :: '\x7b' :: s)).diags = 0) := by
  refine ⟨fun hcs hlen => ?_, fun hcs hlen => ?_, fun hcs => ?_⟩
  · have e0 : parse hdrCfg ('@' :: 'x' :: s)
        = List.foldl (step hdrCfg) (step hdrCfg (step hdrCfg initState '@') 'x') s := rfl
    rw [e0]
    rw [member_run hdrCfg rfl s _ rfl rfl rfl rfl rfl
      (by rw [show (step hdrCfg (step hdrCfg initState '@') 'x').m_buf.length = 1 from rfl]
          omega) hcs]
    exact ⟨rfl, rfl, rfl⟩
  · have e0 : parse stripCfg ('@' :: '[' :: s)
        = List.foldl (step stripCfg) (step stripCfg (step stripCfg
            { initState with out := emit_line stripCfg 1 } '@') '[') s := rfl
    rw [e0]
    rw [prefix_run stripCfg s _ rfl rfl rfl rfl rfl rfl rfl
      (by rw [show (step stripCfg (step stripCfg
            { initState with out := emit_line stripCfg 1 } '@') '[').m_buf.length = 0 from rfl]
          omega) hcs]
    exact ⟨rfl, rfl, rfl⟩
  · have e0 : parse stripCfg ('@' :: '\x7b' :: s)
        = List.foldl (step stripCfg) (step stripCfg (step stripCfg
            { initState with out := emit_line stripCfg 1 } '@') '\x7b') s := rfl
    rw [e0]
    have hrun := block_run_quiet stripCfg s (step stripCfg (step stripCfg
        { initState with out := emit_line stripCfg 1 } '@') '\x7b') rfl rfl rfl rfl rfl hcs
    exact ⟨hrun.2.1.trans rfl, hrun.1, hrun.2.2.trans rfl⟩

/-- C9 witness: the three partial-construct shapes cut short after the
two ordinary bytes ab. -/
theorem c9_eof_partial_silent_witness :
    ((parse hdrCfg ('@' :: 'x' :: (("ab").data))).out = [] ∧
      (parse hdrCfg ('@' :: 'x' :: (("ab").data))).dead = false ∧
      (parse hdrCfg ('@' :: 'x' :: (("ab").data))).diags = 0) ∧
    ((parse stripCfg ('@' :: '[' :: (("ab").data))).out = emit_line stripCfg 1 ∧
      (parse stripCfg ('@' :: '[' :: (("ab").data))).dead = false ∧
      (parse stripCfg ('@' :: '[' :: (("ab").data))).diags = 0) ∧
    ((parse stripCfg ('@' :: '\x7b' :: (("ab").data))).out = emit_line stripCfg 1 ∧
      (parse stripCfg ('@' :: '\x7b' :: (("ab").data))).dead = false ∧
      (parse stripCfg ('@' :: '\x7b' :: (("ab").data))).diags = 0) :=
  ⟨(c9_eof_partial_silent (("ab").data)).1 (by decide) (by decide),
   (c9_eof_partial_silent (("ab").data)).2.1 (by decide) (by decide),
   (c9_eof_partial_silent (("ab").data)).2.2 (by decide)⟩

/-- C10: the attribute accumulator survives the end of an annotation:
no exit of parse mode changes using_attrs, ma_buf or ma_size.  On the
first concrete source the attributes recorded by one annotation are
emitted for a later member annotation that carries no header prefix of
its own; on the second, a block annotation reallocates the buffer with
the raw block bytes (its 64 bytes here filling the allocation exactly)
and the member that follows has those bytes reinterpreted as attribute
names, emitting the ab before the first NUL of the block. -/
theorem c10_attr_accumulator_persists :
    (∀ (cfg : Config) (s : PState) (ch : Char),
      s.dead = false → s.parse_mode = true →
      (step cfg s ch).dead = false → (step cfg s ch).parse_mode = false →
      (step cfg s ch).using_attrs = s.using_attrs ∧
        (step cfg s ch).ma_buf = s.ma_buf ∧ (step cfg s ch).ma_size = s.ma_size) ∧
    (parse hdrCfg (("@[:packed:]\n\n@ T f(void);\n").data)).out
      = (("#line 3 \"s\"\nT f(void) __attribute__((__packed__));\n").data) ∧
    (parse hdrCfg (("@[:p:]\n\n@ \x7b\nab\x00AAAAAAAAAAAAAAAAAAAAAAAAAAAAAAAAAAAAAAAAAAAAAAAAAAAAAAAAAAAA\n\x7d\n@ m;\n").data)).out
      = (("#line 4 \"s\"\nab\x00AAAAAAAAAAAAAAAAAAAAAAAAAAAAAAAAAAAAAAAAAAAAAAAAAAAAAAAAAAAA\n\n#line 6 \"s\"\nm __attribute__((__ab__));\n").data) :=
  ⟨fun cfg s ch hd hpm hd2 hx =>
    ⟨frameOf_using_attrs (step_exit_frame cfg s ch hd hpm hd2 hx).2.2,
     frameOf_ma_buf (step_exit_frame cfg s ch hd hpm hd2 hx).2.2,
     frameOf_ma_size (step_exit_frame cfg s ch hd hpm hd2 hx).2.2⟩,
   by decide,
   by
    set_option maxRecDepth 8192 in decide⟩

end IH
